import Mathlib

/-!
Verification development for `pkg/daemon/writer.go` of
machine-config-operator: a single-writer serialization gateway
(`NodeWriter`) over a conflict-aware node updater (`updateNodeRetry`).

The Go code is shallowly embedded:
* machine errors (`error` values classified by `apierrors.IsConflict`)
  become the inductive `GoError`;
* the Go map `map[string]string` becomes the association list `AnnoMap`
  (Go maps have unique keys; where a proof needs that, it is an explicit
  `keysNodup` hypothesis);
* a `*v1.Node` becomes the structure `Node`, keeping the fields this code
  touches (name, the annotation map — `none` models a nil map — and the
  store-managed resource version);
* the external collaborators (lister, `json.Marshal`,
  `strategicpatch.CreateTwoWayMergePatch`, the typed client's `Patch`)
  become an `Env` of abstract functions, indexed by the attempt number so
  the environment may answer differently on every retry;
* a Go panic (writing to a nil map) is a distinguished outcome that
  aborts the whole computation, so a mutation function is
  `Node → Option Node` with `none` for panic.
-/

set_option autoImplicit false

namespace MCO

/-- A Go `error` value, classified the way `apierrors.IsConflict` sees it:
`conflict` is a StatusError with reason Conflict, `other` is anything
else (including errors built by `fmt.Errorf`). -/
inductive GoError where
  | conflict (s : String)
  | other (s : String)
  deriving DecidableEq, Repr

/-- The message carried by the error (Go `err.Error()` / `%v`). -/
def GoError.msg : GoError → String
  | .conflict s => s
  | .other s => s

/-- Model of `apierrors.IsConflict`. -/
def GoError.isConflict : GoError → Bool
  | .conflict _ => true
  | .other _ => false

/-- A Go `map[string]string` as an association list. Lookup takes the
first matching entry; a well-formed map (as every Go map is) has
pairwise distinct keys. -/
abbrev AnnoMap := List (String × String)

/-- Map lookup: `m[k]` (first entry with key `k`). -/
def AnnoMap.get : AnnoMap → String → Option String
  | [], _ => none
  | (k', v) :: rest, k => if k' = k then some v else AnnoMap.get rest k

/-- Map assignment `m[k] = v`: replace the first entry with key `k` in
place, or append a new entry. -/
def AnnoMap.set : AnnoMap → String → String → AnnoMap
  | [], k, v => [(k, v)]
  | (k', v') :: rest, k, v =>
    if k' = k then (k, v) :: rest else (k', v') :: AnnoMap.set rest k v

/-- The keys of the map, in order. -/
def AnnoMap.keys (m : AnnoMap) : List String :=
  m.map Prod.fst

/-- Go maps have pairwise distinct keys. -/
def AnnoMap.keysNodup (m : AnnoMap) : Prop :=
  m.keys.Nodup

instance (m : AnnoMap) : Decidable m.keysNodup := by
  unfold AnnoMap.keysNodup; infer_instance

/-- The embedding of a `*v1.Node`: the fields this code reads or writes.
`annotations = none` models a nil `Annotations` map (the zero value of
`ObjectMeta.Annotations`). -/
structure Node where
  name : String
  annotations : Option AnnoMap
  resourceVersion : String
  deriving DecidableEq, Repr

/-- `n.DeepCopy()`: on the value level a deep copy is the value itself
(aliasing is treated separately by the heap model below). -/
def Node.deepCopy (n : Node) : Node := n

/-- Go map assignment `node.Annotations[k] = v` on a possibly-nil map:
assigning into a nil map panics (`none`). -/
def mapAssign (a : Option AnnoMap) (k v : String) : Option (Option AnnoMap) :=
  match a with
  | none => none
  | some m => some (some (m.set k v))

/-- The mutation function built by `setNodeAnnotations`:
`for k, v := range m { node.Annotations[k] = v }`.
`none` is a panic (write to a nil map). Go's map iteration order is
unspecified; the embedding iterates in list order, and every property
proved about it is order-independent because the keys of `m` are
distinct. -/
def setNodeAnnosMutation (m : AnnoMap) (node : Node) : Option Node :=
  match m with
  | [] => some node
  | (k, v) :: rest =>
    match mapAssign node.annotations k v with
    | none => none
    | some a => setNodeAnnosMutation rest { node with annotations := a }

/-- The external collaborators of `updateNodeRetry`, indexed by the
attempt number (0-based) so that the lister cache and the store may
answer differently on every attempt:
`listerGet i` is `lister.Get(nodeName)` on attempt `i`;
`marshal` is `json.Marshal`; `createTwoWayMergePatch` is
`strategicpatch.CreateTwoWayMergePatch`; `clientPatch i name p` is
`client.Patch(name, types.StrategicMergePatchType, p)` on attempt `i` —
the typed client always returns a non-nil `*v1.Node` alongside the
error, hence the `Node × Option GoError` result. -/
structure Env (Ser Patch : Type) where
  listerGet : Nat → Except GoError Node
  marshal : Node → Except GoError Ser
  createTwoWayMergePatch : Ser → Ser → Except GoError Patch
  clientPatch : Nat → String → Patch → Node × Option GoError

/-- `fmt.Errorf("failed to create patch for node %q: %v", nodeName, err)`
(line 181). `%q` on a string quotes it. -/
def mkPatchErr (nodeName : String) (e : GoError) : GoError :=
  .other ("failed to create patch for node \"" ++ nodeName ++ "\": " ++ e.msg)

/-- The `mapStringForAnnotations` rendering inside the
gogoproto-generated `String()` of the node's metadata:
`map[string]string` followed by braced `k: v,` entries (the generated
code sorts the keys; the model renders them in list order, and every
map this development evaluates the dump on has at most one entry, so
the order never matters). A nil map renders as the empty brace pair. -/
def gogoMapString : Option AnnoMap → String
  | none => "map[string]string\x7b\x7d"
  | some m =>
    "map[string]string\x7b" ++
      String.join (m.map (fun kv => kv.1 ++ ": " ++ kv.2 ++ ",")) ++ "\x7d"

/-- The gogoproto-generated `String()` of a `*v1.Node`
(`k8s.io/api/core/v1/generated.pb.go`): a nil pointer returns "nil";
otherwise the `&Node\x7b...\x7d` dump, interpolating the object's own
fields — over the fields the `Node` model keeps. Nothing in the dump
comes from anywhere but the node value itself. -/
def nodeStringer : Option Node → String
  | none => "nil"
  | some n =>
    "&Node\x7bObjectMeta:ObjectMeta\x7bName:" ++ n.name ++
      ",ResourceVersion:" ++ n.resourceVersion ++
      ",Annotations:" ++ gogoMapString n.annotations ++ ",\x7d,\x7d"

/-- One character of `strconv.Quote`'s body: quote and backslash are
escaped; the printable ASCII the dumps here consist of passes through
unchanged (the non-printable escapes are irrelevant to them). -/
def goQuoteChar (c : Char) : String :=
  if c = '"' then "\\\"" else if c = '\\' then "\\\\" else String.singleton c

/-- `strconv.Quote`: the double-quoted, escaped form `fmt` uses for the
`q` verb on a string. -/
def goQuote (s : String) : String :=
  "\"" ++ String.join (s.toList.map goQuoteChar) ++ "\""

/-- Go `fmt`'s rendering of `%q` applied to a `*v1.Node`: for the
string verbs (`%s %q %v %x %X`) `fmt` uses the operand's
`String() string` method when it has one, and `*v1.Node` implements the
gogoproto-generated `String()` — so `%q` prints the quoted Stringer
dump of the node value (the method returns "nil" for a nil pointer).
The dump interpolates the node's own fields, never the `nodeName`
argument. -/
def fmtPtrQ (n : Option Node) : String :=
  goQuote (nodeStringer n)

/-- `fmt.Errorf("unable to update node %q: %v", node, err)` (line 188):
the first argument is the local `*v1.Node` variable, not `nodeName`. -/
def mkUnableErr (nodeVar : Option Node) (e : GoError) : GoError :=
  .other ("unable to update node " ++ fmtPtrQ nodeVar ++ ": " ++ e.msg)

/-- Outcome of one execution of the retry closure (lines 161–185):
`panicked` if the mutation function panicked; otherwise `done assigned
submitted err` where `assigned` is the value assigned to the local
`node` variable by `client.Patch` (if that call was reached),
`submitted` the patch handed to `client.Patch` (if reached), and `err`
the closure's return value. -/
inductive AttemptRes (Patch : Type) where
  | panicked
  | done (assigned : Option Node) (submitted : Option Patch) (err : Option GoError)
  deriving DecidableEq, Repr

/-- The body of the retry closure of `updateNodeRetry` (lines 161–185)
on attempt `i`: fetch from the lister, marshal the snapshot, deep-copy,
apply `f` to the clone, marshal the clone, build the two-way merge
patch, submit it. -/
def updateAttempt {Ser Patch : Type} (env : Env Ser Patch) (nodeName : String)
    (f : Node → Option Node) (i : Nat) : AttemptRes Patch :=
  match env.listerGet i with
  | .error e => .done none none (some e)
  | .ok n =>
    match env.marshal n with
    | .error e => .done none none (some e)
    | .ok oldNode =>
      match f n.deepCopy with
      | none => .panicked
      | some nodeClone =>
        match env.marshal nodeClone with
        | .error e => .done none none (some e)
        | .ok newNode =>
          match env.createTwoWayMergePatch oldNode newNode with
          | .error e => .done none none (some (mkPatchErr nodeName e))
          | .ok patchBytes =>
            .done (some (env.clientPatch i nodeName patchBytes).1)
              (some patchBytes) (env.clientPatch i nodeName patchBytes).2

/-- `retry.DefaultBackoff` has `Steps: 4`: the closure runs at most four
times. -/
def defaultBackoffSteps : Nat := 4

/-- Trace instrumentation of the retry loop: the attempt numbers at
which the closure ran, and the patches submitted to the store with
their attempt numbers. Extra output only — it does not influence
control flow. -/
structure UTrace (Patch : Type) where
  attempts : List Nat
  submitted : List (Nat × Patch)
  deriving DecidableEq, Repr

/-- Append of traces. -/
def UTrace.app {Patch : Type} (t u : UTrace Patch) : UTrace Patch :=
  ⟨t.attempts ++ u.attempts, t.submitted ++ u.submitted⟩

/-- How the retry loop ended: a panic escaped, or
`retry.RetryOnConflict` returned (`none` on success, the error
otherwise). -/
inductive LoopOut where
  | panicked
  | finished (retErr : Option GoError)
  deriving DecidableEq, Repr

/-- The combined semantics of `wait.ExponentialBackoff` and
`retry.RetryOnConflict` specialized to the closure of
`updateNodeRetry`: run the closure up to `steps` times; a nil return
stops with success; a conflict return is remembered as the last
conflict error and retried; any other return stops with that error;
exhaustion returns the last conflict error. The local `node` variable
(`nodeVar`) is threaded through because the closure assigns it.
Returns (trace, final `node` variable, outcome). -/
def retryLoop {Ser Patch : Type} (env : Env Ser Patch) (nodeName : String)
    (f : Node → Option Node) :
    Nat → Nat → Option Node → Option GoError → UTrace Patch × Option Node × LoopOut
  | 0, _, nodeVar, lastConflict =>
    (⟨[], []⟩, nodeVar, .finished lastConflict)
  | steps + 1, i, nodeVar, _ =>
    match updateAttempt env nodeName f i with
    | .panicked => (⟨[i], []⟩, nodeVar, .panicked)
    | .done assigned submitted err =>
      let nodeVar' := match assigned with
        | some nd => some nd
        | none => nodeVar
      let tr0 : UTrace Patch := ⟨[i], match submitted with
        | some p => [(i, p)]
        | none => []⟩
      match err with
      | none => (tr0, nodeVar', .finished none)
      | some e =>
        if e.isConflict then
          let r := retryLoop env nodeName f steps (i + 1) nodeVar' (some e)
          (tr0.app r.1, r.2.1, r.2.2)
        else
          (tr0, nodeVar', .finished (some e))

/-- The result of `updateNodeRetry`: the pair `(*v1.Node, error)` it
returns, with the panic outcome kept apart. `ok nd` is `(nd, nil)`;
`err e` is `(nil, e)`. -/
inductive URes where
  | panicked
  | ok (node : Option Node)
  | err (e : GoError)
  deriving DecidableEq, Repr

/-- `updateNodeRetry` (lines 159–191): run the retry loop with
`retry.DefaultBackoff`; on failure wrap the error as on line 188
(formatting the local `node` variable, and returning a nil node), on
success return the local `node` variable. The trace is instrumentation
output. -/
def updateNodeRetry {Ser Patch : Type} (env : Env Ser Patch) (nodeName : String)
    (f : Node → Option Node) : UTrace Patch × URes :=
  let r := retryLoop env nodeName f defaultBackoffSteps 0 none none
  match r.2.2 with
  | .panicked => (r.1, .panicked)
  | .finished none => (r.1, .ok r.2.1)
  | .finished (some e) => (r.1, .err (mkUnableErr r.2.1 e))

/-- `setNodeAnnotations` (lines 193–200): `updateNodeRetry` with the
annotation-merge mutation. -/
def setNodeAnnotations {Ser Patch : Type} (env : Env Ser Patch) (nodeName : String)
    (m : AnnoMap) : UTrace Patch × URes :=
  updateNodeRetry env nodeName (setNodeAnnosMutation m)

/-! ### Constants

The keys from the `constants` package and the local constants of
`writer.go`. -/

/-- Modelled from the spec: the `constants` package referenced by
`writer.go` is not under `src/`; per the spec, state lives in "object
annotations, keyed by two string constants (\"state\" and
\"current-config\")". -/
def MachineConfigDaemonStateAnnotationKey : String := "state"

/-- Modelled from the spec: the second of the two annotation-key
constants of the `constants` package, "current-config". -/
def CurrentMachineConfigAnnotationKey : String := "current-config"

/-- Modelled from the spec: the Done state value of the `constants`
package ("MarkDone(key, versionLabel): set status=Done"). -/
def MachineConfigDaemonStateDone : String := "Done"

/-- Modelled from the spec: the Working state value. -/
def MachineConfigDaemonStateWorking : String := "Working"

/-- Modelled from the spec: the Unreconcilable state value. -/
def MachineConfigDaemonStateUnreconcilable : String := "Unreconcilable"

/-- Modelled from the spec: the Degraded state value. -/
def MachineConfigDaemonStateDegraded : String := "Degraded"

/-- `defaultWriterQueue` (line 19): capacity of the writer channel. -/
def defaultWriterQueue : Nat := 25

/-- `machineConfigDaemonSSHAccessAnnotationKey` (line 22). -/
def machineConfigDaemonSSHAccessAnnotationKey : String :=
  "machineconfiguration.openshift.io/ssh"

/-- `machineConfigDaemonSSHAccessValue` (line 24). -/
def machineConfigDaemonSSHAccessValue : String := "accessed"

/-! ### A concrete store

Modelled from the spec: the store itself (`computeDiff` /
`applyPatch`) is an external collaborator, not under `src/`. The spec
describes it as a two-way merge patch — "a minimal, store-specific
encoding of the difference between an object's pre-mutation and
post-mutation snapshot" — applied by the store ("the smallest
structural diff ... sufficient to reproduce the mutation when applied
to the current server-side state"). Restricted to the `Node` schema, a
strategic merge patch of `v1.Node` metadata coincides with a JSON merge
patch: changed scalar fields appear, the annotation map contributes its
changed entries plus `null` for removed keys, and a nil map appears as
`null`. -/

/-- The annotations part of a merge patch. -/
inductive AnnoPatch where
  | noChange
  | setNull
  | merge (sets : AnnoMap) (dels : List String)
  deriving DecidableEq, Repr

/-- Modelled from the spec: a minimal merge patch over the `Node`
schema. -/
structure MergePatch where
  name : Option String
  resourceVersion : Option String
  annos : AnnoPatch
  deriving DecidableEq, Repr

/-- Modelled from the spec: the diff of the two annotation maps —
entries of `new` that differ from `old`, plus deletions for keys of
`old` absent from `new`. -/
def mkAnnoPatch : Option AnnoMap → Option AnnoMap → AnnoPatch
  | none, none => .noChange
  | some _, none => .setNull
  | none, some b => .merge b []
  | some a, some b =>
    if a = b then .noChange
    else .merge (b.filter fun kv => decide (¬AnnoMap.get a kv.1 = some kv.2))
        ((AnnoMap.keys a).filter fun k => decide (AnnoMap.get b k = none))

/-- Modelled from the spec: `computeDiff(before, after)` over the
`Node` schema. -/
def mkMergePatch (old new : Node) : MergePatch :=
  { name := if new.name = old.name then none else some new.name
    resourceVersion :=
      if new.resourceVersion = old.resourceVersion then none
      else some new.resourceVersion
    annos := mkAnnoPatch old.annotations new.annotations }

/-- Modelled from the spec: the store applies the annotations part of a
merge patch to the current annotations — deletions first, then the
merged entries (creating the map when absent). -/
def applyAnnoPatch (a0 : Option AnnoMap) : AnnoPatch → Option AnnoMap
  | .noChange => a0
  | .setNull => none
  | .merge sets dels =>
    let base : AnnoMap := match a0 with
      | none => []
      | some a => a.filter fun kv => decide (¬kv.1 ∈ dels)
    some (sets.foldl (fun acc kv => acc.set kv.1 kv.2) base)

/-- Modelled from the spec: `applyPatch` merging a patch into the
current server-side object. -/
def applyMergePatch (old : Node) (p : MergePatch) : Node :=
  { name := p.name.getD old.name
    resourceVersion := p.resourceVersion.getD old.resourceVersion
    annotations := applyAnnoPatch old.annotations p.annos }

/-- Modelled from the spec: an environment over the concrete store
holding the single object `stored`: the lister is fresh (always answers
with the current server-side object), serialization is the canonical
injective one, the diff is `mkMergePatch`, and the store applies the
patch to `stored` without conflicts. -/
def concreteEnv (stored : Node) : Env Node MergePatch :=
  { listerGet := fun _ => .ok stored
    marshal := fun n => .ok n
    createTwoWayMergePatch := fun old new => .ok (mkMergePatch old new)
    clientPatch := fun _ _ p => (applyMergePatch stored p, none) }

/-! ### The NodeWriter façade -/

/-- What a producer observes after submitting a message: the value read
from its response channel, or — when processing panicked — nothing,
ever (the loop died before writing). -/
inductive PRes where
  | panicked
  | ret (e : Option GoError)
  deriving DecidableEq, Repr

/-- A message on the writer channel (lines 28–34): the client and
lister it carries are part of its `Env`. -/
structure Msg (Ser Patch : Type) where
  env : Env Ser Patch
  node : String
  annos : AnnoMap

/-- `Run` (lines 50–60) restricted to the messages dequeued before the
stop channel closes: for each message it runs `setNodeAnnotations` and
writes the error component to the message's response channel, then
loops. Returns the responses written, in order, and whether a panic
escaped (killing the loop before a response was written). -/
def NodeWriterRun {Ser Patch : Type} : List (Msg Ser Patch) → List (Option GoError) × Bool
  | [] => ([], false)
  | msg :: rest =>
    match (setNodeAnnotations msg.env msg.node msg.annos).2 with
    | .panicked => ([], true)
    | .ok _ => (none :: (NodeWriterRun rest).1, (NodeWriterRun rest).2)
    | .err e => (some e :: (NodeWriterRun rest).1, (NodeWriterRun rest).2)

/-- The synchronous result a producer gets for one submitted message:
the loop's response for it. -/
def processMsg {Ser Patch : Type} (env : Env Ser Patch) (node : String)
    (m : AnnoMap) : PRes :=
  match (setNodeAnnotations env node m).2 with
  | .panicked => .panicked
  | .ok _ => .ret none
  | .err e => .ret (some e)

/-- The annotations map built by `SetDone` (lines 64–67). -/
def setDoneAnnos (dc : String) : AnnoMap :=
  [(MachineConfigDaemonStateAnnotationKey, MachineConfigDaemonStateDone),
   (CurrentMachineConfigAnnotationKey, dc)]

/-- `SetDone` (lines 63–77): submit the Done/current-config annotations
and return the response-channel value. -/
def SetDone {Ser Patch : Type} (env : Env Ser Patch) (node dc : String) : PRes :=
  processMsg env node (setDoneAnnos dc)

/-- The annotations map built by `SetWorking` (lines 81–83). -/
def setWorkingAnnos : AnnoMap :=
  [(MachineConfigDaemonStateAnnotationKey, MachineConfigDaemonStateWorking)]

/-- `SetWorking` (lines 80–93). -/
def SetWorking {Ser Patch : Type} (env : Env Ser Patch) (node : String) : PRes :=
  processMsg env node setWorkingAnnos

/-- The annotations map built by `SetUnreconcilable` (lines 98–100). -/
def unreconcilableAnnos : AnnoMap :=
  [(MachineConfigDaemonStateAnnotationKey, MachineConfigDaemonStateUnreconcilable)]

/-- `glog.Errorf("Marking Unreconcilable due to: %v", err)` (line 97). -/
def glogMarkingUnreconcilable (cause : GoError) : String :=
  "Marking Unreconcilable due to: " ++ cause.msg

/-- `glog.Errorf("Error setting Unreconcilable annotation for node %s: %v",
node, clientErr)` (line 111). -/
def glogUnreconcilableFail (node : String) (e : GoError) : String :=
  "Error setting Unreconcilable annotation for node " ++ node ++ ": " ++ e.msg

/-- `SetUnreconcilable` (lines 96–114): log the cause, submit the
Unreconcilable annotation, on a non-nil response log it, and return the
response unchanged. Returns (log lines, result). -/
def SetUnreconcilable {Ser Patch : Type} (cause : GoError) (env : Env Ser Patch)
    (node : String) : List String × PRes :=
  match processMsg env node unreconcilableAnnos with
  | .panicked => ([glogMarkingUnreconcilable cause], .panicked)
  | .ret none => ([glogMarkingUnreconcilable cause], .ret none)
  | .ret (some e) =>
    ([glogMarkingUnreconcilable cause, glogUnreconcilableFail node e], .ret (some e))

/-- The annotations map built by `SetDegraded` (lines 120–122). -/
def degradedAnnos : AnnoMap :=
  [(MachineConfigDaemonStateAnnotationKey, MachineConfigDaemonStateDegraded)]

/-- `glog.Errorf("Marking Degraded due to: %v", err)` (line 119). -/
def glogMarkingDegraded (cause : GoError) : String :=
  "Marking Degraded due to: " ++ cause.msg

/-- `glog.Errorf("Error setting Degraded annotation for node %s: %v",
node, clientErr)` (line 133). -/
def glogDegradedFail (node : String) (e : GoError) : String :=
  "Error setting Degraded annotation for node " ++ node ++ ": " ++ e.msg

/-- `SetDegraded` (lines 118–136). -/
def SetDegraded {Ser Patch : Type} (cause : GoError) (env : Env Ser Patch)
    (node : String) : List String × PRes :=
  match processMsg env node degradedAnnos with
  | .panicked => ([glogMarkingDegraded cause], .panicked)
  | .ret none => ([glogMarkingDegraded cause], .ret none)
  | .ret (some e) =>
    ([glogMarkingDegraded cause, glogDegradedFail node e], .ret (some e))

/-- The annotations map built by `SetSSHAccessed` (lines 140–142). -/
def sshAccessedAnnos : AnnoMap :=
  [(machineConfigDaemonSSHAccessAnnotationKey, machineConfigDaemonSSHAccessValue)]

/-- `SetSSHAccessed` (lines 139–152). -/
def SetSSHAccessed {Ser Patch : Type} (env : Env Ser Patch) (node : String) : PRes :=
  processMsg env node sshAccessedAnnos

/-- `strconv.ParseBool`: the strings Go accepts as booleans. A string
is boolean-valued exactly when this returns `some`. -/
def goParseBool (s : String) : Option Bool :=
  if s = "1" ∨ s = "t" ∨ s = "T" ∨ s = "true" ∨ s = "TRUE" ∨ s = "True" then some true
  else if s = "0" ∨ s = "f" ∨ s = "F" ∨ s = "false" ∨ s = "FALSE" ∨ s = "False" then
    some false
  else none

/-! ### The aliasing-level model of the attempt body

On the value level `DeepCopy` is the identity, which would make the
no-mutation-of-the-snapshot property vacuous. This model makes the
pointers of lines 162–178 explicit: the lister hands out a pointer into
the shared informer cache, `DeepCopy` allocates a fresh cell, and the
mutation function writes only through the clone's pointer. -/

/-- A heap of `*v1.Node` cells; an address is an index, allocation
appends. -/
structure Heap where
  cells : List Node
  deriving Repr

/-- Dereference. -/
def Heap.get (h : Heap) (i : Nat) : Option Node :=
  h.cells[i]?

/-- Write through a pointer. -/
def Heap.set (h : Heap) (i : Nat) (n : Node) : Heap :=
  ⟨h.cells.set i n⟩

/-- Allocate a fresh cell holding `n`; returns its address. -/
def Heap.alloc (h : Heap) (n : Node) : Nat × Heap :=
  (h.cells.length, ⟨h.cells ++ [n]⟩)

/-- Lines 162–178 with aliasing explicit: `n := lister.Get(...)` yields
the pointer `addr` into the cache `h`; serialize `*n` ("before");
`nodeClone := n.DeepCopy()` allocates a fresh cell; `f(nodeClone)`
mutates only the clone's cell (or panics); serialize the clone
("after"). Returns the heap after the attempt and the before/after
values that were serialized. -/
def attemptBodyHeap (h : Heap) (addr : Nat) (f : Node → Option Node) :
    Heap × Option (Node × Node) :=
  match h.get addr with
  | none => (h, none)
  | some n =>
    match h.alloc n.deepCopy with
    | (cloneAddr, h1) =>
      match f n.deepCopy with
      | none => (h1, none)
      | some nMut => (h1.set cloneAddr nMut, some (n, nMut))

/-- The annotation value of a node at key `k` (reading a nil Go map is
safe and yields the zero value). -/
def Node.getAnno (n : Node) (k : String) : Option String :=
  match n.annotations with
  | none => none
  | some a => a.get k

/-- Prefix test on character lists. -/
def listStartsWith : List Char → List Char → Bool
  | [], _ => true
  | _ :: _, [] => false
  | c :: cs, d :: ds => c == d && listStartsWith cs ds

/-- Whether `sub` occurs as a contiguous run inside `s`. -/
def listHasRun (sub : List Char) : List Char → Bool
  | [] => listStartsWith sub []
  | c :: rest => listStartsWith sub (c :: rest) || listHasRun sub rest

/-- Whether `sub` occurs as a substring of `s`. -/
def strContains (s sub : String) : Bool :=
  listHasRun sub.toList s.toList

/-- The error component of an `updateNodeRetry` result (what `Run`
writes to a message's response channel). -/
def uresErrOf : URes → Option GoError
  | .err e => some e
  | _ => none

/-- Modelled from the spec: the server-side object after one processed
request against the concrete store (the success value of the
conflict-aware update). -/
def storeAfter (stored : Node) (nodeName : String) (m : AnnoMap) : Option Node :=
  match (setNodeAnnotations (concreteEnv stored) nodeName m).2 with
  | .ok (some n2) => some n2
  | _ => none

/-! ### Concrete fixtures

Closed instances used to evaluate the embedding on concrete inputs. -/

/-- The `&v1.Node{}` the typed client returns alongside an error. -/
def emptyNode : Node :=
  { name := "", annotations := none, resourceVersion := "" }

/-- A stored node with an empty (but non-nil) annotation map. -/
def wNode : Node :=
  { name := "node-1", annotations := some [], resourceVersion := "1" }

/-- `wNode` after the Degraded mutation. -/
def wNodeDeg : Node :=
  { name := "node-1"
    annotations := some [(MachineConfigDaemonStateAnnotationKey,
      MachineConfigDaemonStateDegraded)]
    resourceVersion := "1" }

/-- A node whose `Annotations` map is nil. -/
def wNodeNil : Node :=
  { name := "node-1", annotations := none, resourceVersion := "1" }

/-- An environment whose lister always fails with a non-conflict error. -/
def failEnv : Env Node MergePatch :=
  { listerGet := fun _ => .error (.other "boom")
    marshal := fun n => .ok n
    createTwoWayMergePatch := fun old new => .ok (mkMergePatch old new)
    clientPatch := fun _ _ _ => (emptyNode, none) }

/-- An environment whose store rejects every patch submission with a
version-conflict error (returning the empty node, as the typed client
does). -/
def conflictEnv : Env Node MergePatch :=
  { listerGet := fun _ => .ok wNode
    marshal := fun n => .ok n
    createTwoWayMergePatch := fun old new => .ok (mkMergePatch old new)
    clientPatch := fun _ _ _ =>
      (emptyNode, some (.conflict "the object has been modified")) }

/-- A message whose processing panics (nil annotation map, non-empty
annotation write). -/
def panicMsg : Msg Node MergePatch :=
  { env := concreteEnv wNodeNil, node := "node-1", annos := degradedAnnos }

/-- A message whose processing succeeds. -/
def okMsg : Msg Node MergePatch :=
  { env := concreteEnv wNode, node := "node-1", annos := degradedAnnos }

/-! ### Association-map lemmas -/

theorem AnnoMap.get_set (a : AnnoMap) (k v k2 : String) :
    AnnoMap.get (AnnoMap.set a k v) k2 = if k = k2 then some v else AnnoMap.get a k2 := by
  induction a with
  | nil => simp [AnnoMap.set, AnnoMap.get]
  | cons kv rest ih =>
    obtain ⟨k0, v0⟩ := kv
    by_cases h0 : k0 = k
    · subst h0
      by_cases h1 : k0 = k2 <;> simp [AnnoMap.set, AnnoMap.get, h1]
    · by_cases h1 : k0 = k2
      · have h2 : ¬k = k2 := fun h => h0 (h1.trans h.symm)
        have h3 : ¬k2 = k := fun h => h0 (h1.trans h)
        simp [AnnoMap.set, AnnoMap.get, h0, h1, h2, h3]
      · simp [AnnoMap.set, AnnoMap.get, h0, h1, ih]

theorem AnnoMap.get_eq_none_iff (a : AnnoMap) (k : String) :
    AnnoMap.get a k = none ↔ ¬k ∈ AnnoMap.keys a := by
  induction a with
  | nil => simp [AnnoMap.get, AnnoMap.keys]
  | cons kv rest ih =>
    obtain ⟨k0, v0⟩ := kv
    by_cases h0 : k0 = k
    · subst h0
      simp [AnnoMap.get, AnnoMap.keys]
    · have h2 : ¬k = k0 := fun h => h0 h.symm
      simp [AnnoMap.get, AnnoMap.keys, h0, h2, ih]

theorem AnnoMap.keys_set (a : AnnoMap) (k v : String) :
    AnnoMap.keys (AnnoMap.set a k v) =
      if k ∈ AnnoMap.keys a then AnnoMap.keys a else AnnoMap.keys a ++ [k] := by
  induction a with
  | nil => simp [AnnoMap.set, AnnoMap.keys]
  | cons kv rest ih =>
    obtain ⟨k0, v0⟩ := kv
    simp only [AnnoMap.keys] at ih ⊢
    by_cases h0 : k0 = k
    · subst h0
      simp [AnnoMap.set]
    · have h2 : ¬k = k0 := fun h => h0 h.symm
      by_cases h1 : k ∈ List.map Prod.fst rest
      · simp [AnnoMap.set, h0, h1, ih, h2]
      · simp [AnnoMap.set, h0, h1, ih, h2]

theorem AnnoMap.keysNodup_set (a : AnnoMap) (k v : String) (h : a.keysNodup) :
    AnnoMap.keysNodup (AnnoMap.set a k v) := by
  unfold AnnoMap.keysNodup at h ⊢
  rw [AnnoMap.keys_set]
  by_cases h1 : k ∈ AnnoMap.keys a
  · simpa [h1] using h
  · simp only [if_neg h1]
    refine List.Nodup.append h (List.nodup_singleton k) ?_
    intro x hx hx2
    simp only [List.mem_singleton] at hx2
    subst hx2
    exact h1 hx

/-- Filtering on a predicate of the key alone commutes with lookup. -/
theorem AnnoMap.get_filter_key (a : AnnoMap) (q : String → Bool) (k : String) :
    AnnoMap.get (a.filter fun kv => q kv.1) k =
      if q k then AnnoMap.get a k else none := by
  induction a with
  | nil => simp [AnnoMap.get]
  | cons kv rest ih =>
    obtain ⟨k0, v0⟩ := kv
    by_cases h0 : k0 = k
    · subst h0
      by_cases hq : q k0 <;> simp [List.filter_cons, hq, AnnoMap.get, ih]
    · by_cases hq : q k0 <;> simp [List.filter_cons, hq, AnnoMap.get, h0, ih]

/-- Lookup in a key-distinct map after a general filter: the unique
entry for `k` survives exactly when the predicate keeps it. -/
theorem AnnoMap.get_filter_nodup (a : AnnoMap) (p : String × String → Bool)
    (k : String) (h : a.keysNodup) :
    AnnoMap.get (a.filter p) k =
      match AnnoMap.get a k with
      | some v => if p (k, v) then some v else none
      | none => none := by
  induction a with
  | nil => simp [AnnoMap.get]
  | cons kv rest ih =>
    obtain ⟨k0, v0⟩ := kv
    have hpair : ¬k0 ∈ List.map Prod.fst rest ∧ AnnoMap.keysNodup rest := by
      unfold AnnoMap.keysNodup AnnoMap.keys at h
      simp only [List.map_cons, List.nodup_cons] at h
      exact ⟨h.1, h.2⟩
    by_cases h0 : k0 = k
    · subst h0
      have hnone : AnnoMap.get (List.filter p rest) k0 = none := by
        rw [AnnoMap.get_eq_none_iff]
        intro hmem
        apply hpair.1
        unfold AnnoMap.keys at hmem
        obtain ⟨kv2, hkv2, hfst⟩ := List.mem_map.mp hmem
        exact List.mem_map.mpr ⟨kv2, List.mem_of_mem_filter hkv2, hfst⟩
      by_cases hp : p (k0, v0)
      · simp [List.filter_cons, hp, AnnoMap.get]
      · simp [List.filter_cons, hp, AnnoMap.get, hnone]
    · by_cases hp : p (k0, v0) <;>
        simp [List.filter_cons, hp, AnnoMap.get, h0, ih hpair.2]

/-- `set`-fold lookup when the written keys are pairwise distinct: the
fold behaves like a single map update. -/
theorem AnnoMap.get_foldl_set_nodup (l : AnnoMap) (base : AnnoMap) (k : String)
    (h : l.keysNodup) :
    AnnoMap.get (List.foldl (fun acc kv => AnnoMap.set acc kv.1 kv.2) base l) k =
      match AnnoMap.get l k with
      | some v => some v
      | none => AnnoMap.get base k := by
  induction l generalizing base with
  | nil => simp [AnnoMap.get]
  | cons kv rest ih =>
    obtain ⟨k0, v0⟩ := kv
    have hpair : ¬k0 ∈ List.map Prod.fst rest ∧ AnnoMap.keysNodup rest := by
      unfold AnnoMap.keysNodup AnnoMap.keys at h
      simp only [List.map_cons, List.nodup_cons] at h
      exact ⟨h.1, h.2⟩
    rw [List.foldl_cons, ih (AnnoMap.set base k0 v0) hpair.2]
    by_cases h0 : k0 = k
    · subst h0
      have hnone : AnnoMap.get rest k0 = none := by
        rw [AnnoMap.get_eq_none_iff]
        exact hpair.1
      simp [AnnoMap.get, hnone, AnnoMap.get_set]
    · have h2 : ¬k = k0 := fun h3 => h0 h3.symm
      simp only [AnnoMap.get, if_neg h0]
      cases hrk : AnnoMap.get rest k with
      | some v => rfl
      | none => simp [AnnoMap.get_set, h0]

/-- Keys absent from `m` are untouched by the `set`-fold. -/
theorem AnnoMap.get_foldl_set_not_mem (m : AnnoMap) (a : AnnoMap) (k : String)
    (h : ¬k ∈ AnnoMap.keys m) :
    AnnoMap.get (List.foldl (fun acc kv => AnnoMap.set acc kv.1 kv.2) a m) k =
      AnnoMap.get a k := by
  induction m generalizing a with
  | nil => rfl
  | cons kv rest ih =>
    obtain ⟨k0, v0⟩ := kv
    have hk : ¬k = k0 ∧ ¬k ∈ AnnoMap.keys rest := by
      unfold AnnoMap.keys at h ⊢
      simp only [List.map_cons, List.mem_cons] at h
      exact ⟨fun h1 => h (Or.inl h1), fun h1 => h (Or.inr h1)⟩
    rw [List.foldl_cons, ih (AnnoMap.set a k0 v0) hk.2, AnnoMap.get_set,
      if_neg (fun h1 => hk.1 h1.symm)]

/-- The `set`-fold preserves key distinctness. -/
theorem AnnoMap.keysNodup_foldl_set (m : AnnoMap) (a : AnnoMap) (h : a.keysNodup) :
    AnnoMap.keysNodup (List.foldl (fun acc kv => AnnoMap.set acc kv.1 kv.2) a m) := by
  induction m generalizing a with
  | nil => exact h
  | cons kv rest ih =>
    rw [List.foldl_cons]
    exact ih (AnnoMap.set a kv.1 kv.2) (AnnoMap.keysNodup_set a kv.1 kv.2 h)

/-- Filtering preserves key distinctness. -/
theorem AnnoMap.keysNodup_filter (a : AnnoMap) (p : String × String → Bool)
    (h : a.keysNodup) : AnnoMap.keysNodup (a.filter p) := by
  unfold AnnoMap.keysNodup AnnoMap.keys at h ⊢
  exact List.Nodup.sublist (List.Sublist.map Prod.fst (List.filter_sublist a)) h

/-- The annotation-merge mutation on a node with a non-nil map: it
returns the node with the entries of `m` folded in and everything else
untouched. -/
theorem setNodeAnnosMutation_some (m : AnnoMap) (node : Node) (a : AnnoMap)
    (ha : node.annotations = some a) :
    setNodeAnnosMutation m node =
      some { name := node.name
             annotations :=
               some (List.foldl (fun acc kv => AnnoMap.set acc kv.1 kv.2) a m)
             resourceVersion := node.resourceVersion } := by
  induction m generalizing node a with
  | nil =>
    obtain ⟨nm, ann, rv⟩ := node
    cases ha
    rfl
  | cons kv rest ih =>
    obtain ⟨k0, v0⟩ := kv
    rw [List.foldl_cons]
    have step : setNodeAnnosMutation ((k0, v0) :: rest) node =
        setNodeAnnosMutation rest
          { node with annotations := some (AnnoMap.set a k0 v0) } := by
      simp [setNodeAnnosMutation, mapAssign, ha]
    rw [step, ih _ (AnnoMap.set a k0 v0) rfl]

/-- Lookup after a general filter when the entry is present. -/
theorem AnnoMap.get_filter_nodup_some (b : AnnoMap) (p : String × String → Bool)
    (k v : String) (hwb : b.keysNodup) (hgb : AnnoMap.get b k = some v) :
    AnnoMap.get (b.filter p) k = if p (k, v) then some v else none := by
  rw [AnnoMap.get_filter_nodup b p k hwb, hgb]

/-- Lookup after a general filter when the entry is absent. -/
theorem AnnoMap.get_filter_nodup_none (b : AnnoMap) (p : String × String → Bool)
    (k : String) (hwb : b.keysNodup) (hgb : AnnoMap.get b k = none) :
    AnnoMap.get (b.filter p) k = none := by
  rw [AnnoMap.get_filter_nodup b p k hwb, hgb]

/-- Applying the annotations diff of two non-nil maps reproduces the
"after" map pointwise. -/
theorem applyAnnoPatch_mkAnnoPatch (a b : AnnoMap) (hwa : a.keysNodup)
    (hwb : b.keysNodup) :
    ∃ c : AnnoMap, applyAnnoPatch (some a) (mkAnnoPatch (some a) (some b)) = some c ∧
      AnnoMap.keysNodup c ∧ ∀ k, AnnoMap.get c k = AnnoMap.get b k := by
  by_cases heq : a = b
  · subst heq
    refine ⟨a, ?_, hwa, fun k => rfl⟩
    simp [mkAnnoPatch, applyAnnoPatch]
  · have hmk : mkAnnoPatch (some a) (some b) =
        AnnoPatch.merge (b.filter fun kv => decide (¬AnnoMap.get a kv.1 = some kv.2))
          ((AnnoMap.keys a).filter fun k2 => decide (AnnoMap.get b k2 = none)) := by
      simp [mkAnnoPatch, heq]
    have happ : applyAnnoPatch (some a) (mkAnnoPatch (some a) (some b)) =
        some (List.foldl (fun acc kv => AnnoMap.set acc kv.1 kv.2)
          (a.filter fun kv =>
            decide (¬kv.1 ∈ (AnnoMap.keys a).filter fun k2 =>
              decide (AnnoMap.get b k2 = none)))
          (b.filter fun kv => decide (¬AnnoMap.get a kv.1 = some kv.2))) := by
      rw [hmk]
      rfl
    rw [happ]
    have hsetsw : AnnoMap.keysNodup
        (b.filter fun kv => decide (¬AnnoMap.get a kv.1 = some kv.2)) :=
      AnnoMap.keysNodup_filter b _ hwb
    have hbasew : AnnoMap.keysNodup
        (a.filter fun kv =>
          decide (¬kv.1 ∈ (AnnoMap.keys a).filter fun k2 =>
            decide (AnnoMap.get b k2 = none))) :=
      AnnoMap.keysNodup_filter a _ hwa
    refine ⟨_, rfl, AnnoMap.keysNodup_foldl_set _ _ hbasew, ?_⟩
    intro k
    rw [AnnoMap.get_foldl_set_nodup _ _ _ hsetsw]
    have hdel : ∀ k2 : String,
        (k2 ∈ (AnnoMap.keys a).filter fun k3 => decide (AnnoMap.get b k3 = none)) ↔
          k2 ∈ AnnoMap.keys a ∧ AnnoMap.get b k2 = none := by
      intro k2
      simp [List.mem_filter]
    have hbasek : ∀ k2 : String,
        AnnoMap.get (a.filter fun kv =>
          decide (¬kv.1 ∈ (AnnoMap.keys a).filter fun k3 =>
            decide (AnnoMap.get b k3 = none))) k2 =
        if k2 ∈ (AnnoMap.keys a).filter (fun k3 => decide (AnnoMap.get b k3 = none))
          then none else AnnoMap.get a k2 := by
      intro k2
      rw [AnnoMap.get_filter_key a
        (fun k3 => decide (¬k3 ∈ (AnnoMap.keys a).filter fun k4 =>
          decide (AnnoMap.get b k4 = none))) k2]
      by_cases hmem : k2 ∈ (AnnoMap.keys a).filter fun k3 =>
          decide (AnnoMap.get b k3 = none)
      · simp [hmem]
      · simp [hmem]
    cases hgb : AnnoMap.get b k with
    | some v =>
      have hknotdel :
          ¬k ∈ (AnnoMap.keys a).filter fun k3 => decide (AnnoMap.get b k3 = none) := by
        rw [hdel]
        rintro ⟨-, h2⟩
        rw [hgb] at h2
        exact Option.noConfusion h2
      by_cases hga : AnnoMap.get a k = some v
      · have hsets : AnnoMap.get
            (b.filter fun kv => decide (¬AnnoMap.get a kv.1 = some kv.2)) k = none := by
          rw [AnnoMap.get_filter_nodup_some b _ k v hwb hgb]
          simp [hga]
        rw [hsets]
        rw [hbasek k]
        simp [hknotdel, hga]
      · have hsets : AnnoMap.get
            (b.filter fun kv => decide (¬AnnoMap.get a kv.1 = some kv.2)) k = some v := by
          rw [AnnoMap.get_filter_nodup_some b _ k v hwb hgb]
          simp [hga]
        rw [hsets]
    | none =>
      have hsets : AnnoMap.get
          (b.filter fun kv => decide (¬AnnoMap.get a kv.1 = some kv.2)) k = none :=
        AnnoMap.get_filter_nodup_none b _ k hwb hgb
      rw [hsets, hbasek k]
      by_cases hka : k ∈ AnnoMap.keys a
      · have hin : k ∈ (AnnoMap.keys a).filter fun k3 =>
            decide (AnnoMap.get b k3 = none) := by
          rw [hdel]
          exact ⟨hka, hgb⟩
        simp [hin]
      · have h1 : AnnoMap.get a k = none := (AnnoMap.get_eq_none_iff a k).mpr hka
        have h2 : ¬k ∈ (AnnoMap.keys a).filter fun k3 =>
            decide (AnnoMap.get b k3 = none) := by
          rw [hdel]
          rintro ⟨h3, -⟩
          exact hka h3
        simp [h1, h2]

/-- Applying the diff of two nodes with non-nil annotation maps
reproduces the "after" node: scalar fields exactly, annotations
pointwise. -/
theorem applyMergePatch_mkMergePatch (old new : Node) (a b : AnnoMap)
    (ha : old.annotations = some a) (hb : new.annotations = some b)
    (hwa : a.keysNodup) (hwb : b.keysNodup) :
    ∃ c : AnnoMap,
      applyMergePatch old (mkMergePatch old new) =
        { name := new.name, annotations := some c,
          resourceVersion := new.resourceVersion } ∧
      AnnoMap.keysNodup c ∧ ∀ k, AnnoMap.get c k = AnnoMap.get b k := by
  obtain ⟨c, hc, hcw, hck⟩ := applyAnnoPatch_mkAnnoPatch a b hwa hwb
  refine ⟨c, ?_, hcw, hck⟩
  unfold applyMergePatch mkMergePatch
  rw [ha, hb] at *
  by_cases h1 : new.name = old.name <;> by_cases h2 : new.resourceVersion = old.resourceVersion <;>
    simp [h1, h2, hc]

/-! ### Unfolding helpers for the retry loop -/

/-- One unrolling of the retry loop. -/
theorem retryLoop_succ {Ser Patch : Type} (env : Env Ser Patch) (nodeName : String)
    (f : Node → Option Node) (steps i : Nat) (nodeVar : Option Node)
    (lc : Option GoError) :
    retryLoop env nodeName f (steps + 1) i nodeVar lc =
      match updateAttempt env nodeName f i with
      | .panicked => (⟨[i], []⟩, nodeVar, .panicked)
      | .done assigned submitted err =>
        let nodeVar' := match assigned with
          | some nd => some nd
          | none => nodeVar
        let tr0 : UTrace Patch := ⟨[i], match submitted with
          | some p => [(i, p)]
          | none => []⟩
        match err with
        | none => (tr0, nodeVar', .finished none)
        | some e =>
          if e.isConflict then
            let r := retryLoop env nodeName f steps (i + 1) nodeVar' (some e)
            (tr0.app r.1, r.2.1, r.2.2)
          else
            (tr0, nodeVar', .finished (some e)) := by
  rfl

/-- If the very first attempt succeeds, `updateNodeRetry` returns the
node assigned by `client.Patch` and records the one submitted patch. -/
theorem updateNodeRetry_first_ok {Ser Patch : Type} (env : Env Ser Patch)
    (nodeName : String) (f : Node → Option Node) (nd : Node) (pp : Patch)
    (h : updateAttempt env nodeName f 0 = .done (some nd) (some pp) none) :
    updateNodeRetry env nodeName f = (⟨[0], [(0, pp)]⟩, .ok (some nd)) := by
  unfold updateNodeRetry defaultBackoffSteps
  have h4 : (4 : Nat) = 3 + 1 := rfl
  rw [h4, retryLoop_succ, h]

/-- If the very first attempt panics, so does `updateNodeRetry`. -/
theorem updateNodeRetry_first_panic {Ser Patch : Type} (env : Env Ser Patch)
    (nodeName : String) (f : Node → Option Node)
    (h : updateAttempt env nodeName f 0 = .panicked) :
    updateNodeRetry env nodeName f = (⟨[0], []⟩, .panicked) := by
  unfold updateNodeRetry defaultBackoffSteps
  have h4 : (4 : Nat) = 3 + 1 := rfl
  rw [h4, retryLoop_succ, h]

/-- Against the concrete store, one call of `setNodeAnnotations` on an
object with a non-nil, key-distinct annotation map succeeds on the
first attempt and yields the stored object with exactly the entries of
`m` folded into its annotations. -/
theorem setNodeAnnotations_concrete (stored : Node) (a : AnnoMap) (nodeName : String)
    (m : AnnoMap) (ha : stored.annotations = some a) (hwf : a.keysNodup) :
    ∃ c : AnnoMap,
      (setNodeAnnotations (concreteEnv stored) nodeName m).2 =
        URes.ok (some { name := stored.name, annotations := some c,
                        resourceVersion := stored.resourceVersion }) ∧
      AnnoMap.keysNodup c ∧
      ∀ k, AnnoMap.get c k =
        AnnoMap.get (List.foldl (fun acc kv => AnnoMap.set acc kv.1 kv.2) a m) k := by
  have hmut := setNodeAnnosMutation_some m stored a ha
  have hbw : AnnoMap.keysNodup
      (List.foldl (fun acc kv => AnnoMap.set acc kv.1 kv.2) a m) :=
    AnnoMap.keysNodup_foldl_set m a hwf
  obtain ⟨c, hc, hcw, hck⟩ := applyMergePatch_mkMergePatch stored
    { name := stored.name
      annotations := some (List.foldl (fun acc kv => AnnoMap.set acc kv.1 kv.2) a m)
      resourceVersion := stored.resourceVersion }
    a _ ha rfl hwf hbw
  have hatt : updateAttempt (concreteEnv stored) nodeName (setNodeAnnosMutation m) 0 =
      .done (some (applyMergePatch stored (mkMergePatch stored
        { name := stored.name
          annotations := some (List.foldl (fun acc kv => AnnoMap.set acc kv.1 kv.2) a m)
          resourceVersion := stored.resourceVersion })))
        (some (mkMergePatch stored
          { name := stored.name
            annotations := some (List.foldl (fun acc kv => AnnoMap.set acc kv.1 kv.2) a m)
            resourceVersion := stored.resourceVersion }))
        none := by
    simp [updateAttempt, concreteEnv, Node.deepCopy, hmut]
  refine ⟨c, ?_, hcw, hck⟩
  unfold setNodeAnnotations
  rw [updateNodeRetry_first_ok _ _ _ _ _ hatt]
  rw [hc]

@[simp] theorem UTrace.app_attempts {Patch : Type} (t u : UTrace Patch) :
    (UTrace.app t u).attempts = t.attempts ++ u.attempts := rfl

@[simp] theorem UTrace.app_submitted {Patch : Type} (t u : UTrace Patch) :
    (UTrace.app t u).submitted = t.submitted ++ u.submitted := rfl

/-- Base case of the retry loop. -/
theorem retryLoop_zero {Ser Patch : Type} (env : Env Ser Patch) (nodeName : String)
    (f : Node → Option Node) (i : Nat) (nodeVar : Option Node) (lc : Option GoError) :
    retryLoop env nodeName f 0 i nodeVar lc = (⟨[], []⟩, nodeVar, .finished lc) := rfl

/-- If an attempt submitted a patch, the attempt body produced it from
that attempt's own lister snapshot: fetch, marshal, clone-and-mutate,
marshal, diff. -/
theorem updateAttempt_submitted_inv {Ser Patch : Type} (env : Env Ser Patch)
    (nodeName : String) (f : Node → Option Node) (i : Nat) (a : Option Node)
    (p : Patch) (e : Option GoError)
    (h : updateAttempt env nodeName f i = .done a (some p) e) :
    ∃ n nc old new, env.listerGet i = .ok n ∧ env.marshal n = .ok old ∧
      f n.deepCopy = some nc ∧ env.marshal nc = .ok new ∧
      env.createTwoWayMergePatch old new = .ok p := by
  unfold updateAttempt at h
  cases hl : env.listerGet i with
  | error e0 => rw [hl] at h; simp at h
  | ok n =>
    rw [hl] at h
    simp only [] at h
    cases hm : env.marshal n with
    | error e0 => rw [hm] at h; simp at h
    | ok oldNode =>
      rw [hm] at h
      simp only [] at h
      cases hf : f n.deepCopy with
      | none => rw [hf] at h; simp at h
      | some nc =>
        rw [hf] at h
        simp only [] at h
        cases hm2 : env.marshal nc with
        | error e0 => rw [hm2] at h; simp at h
        | ok newNode =>
          rw [hm2] at h
          simp only [] at h
          cases hp : env.createTwoWayMergePatch oldNode newNode with
          | error e0 => rw [hp] at h; simp at h
          | ok pb =>
            rw [hp] at h
            simp only [] at h
            simp only [AttemptRes.done.injEq, Option.some.injEq] at h
            obtain ⟨-, hpb, -⟩ := h
            subst hpb
            exact ⟨n, nc, oldNode, newNode, rfl, hm, hf, hm2, hp⟩

/-- Every patch recorded in the loop's trace was produced by its own
attempt's body. -/
theorem retryLoop_submitted_inv {Ser Patch : Type} (env : Env Ser Patch)
    (nodeName : String) (f : Node → Option Node) :
    ∀ (steps i0 : Nat) (nv : Option Node) (lc : Option GoError) (i : Nat) (p : Patch),
      (i, p) ∈ (retryLoop env nodeName f steps i0 nv lc).1.submitted →
      ∃ a e, updateAttempt env nodeName f i = .done a (some p) e := by
  intro steps
  induction steps with
  | zero =>
    intro i0 nv lc i p h
    rw [retryLoop_zero] at h
    simp at h
  | succ steps ih =>
    intro i0 nv lc i p h
    rw [retryLoop_succ] at h
    cases hat : updateAttempt env nodeName f i0 with
    | panicked =>
      rw [hat] at h
      simp at h
    | done assigned submitted0 err =>
      rw [hat] at h
      cases err with
      | none =>
        cases submitted0 with
        | none => simp at h
        | some p0 =>
          simp at h
          obtain ⟨h1, h2⟩ := h
          subst h1
          subst h2
          exact ⟨assigned, none, hat⟩
      | some e =>
        by_cases hc : e.isConflict
        · cases submitted0 with
          | none =>
            simp [hc] at h
            exact ih (i0 + 1) _ (some e) i p h
          | some p0 =>
            simp [hc] at h
            rcases h with ⟨h1, h2⟩ | h
            · subst h1
              subst h2
              exact ⟨assigned, some e, hat⟩
            · exact ih (i0 + 1) _ (some e) i p h
        · cases submitted0 with
          | none => simp [hc] at h
          | some p0 =>
            simp [hc] at h
            obtain ⟨h1, h2⟩ := h
            subst h1
            subst h2
            exact ⟨assigned, some e, hat⟩

/-- The trace component of `updateNodeRetry` is the loop's trace. -/
theorem updateNodeRetry_fst {Ser Patch : Type} (env : Env Ser Patch)
    (nodeName : String) (f : Node → Option Node) :
    (updateNodeRetry env nodeName f).1 =
      (retryLoop env nodeName f defaultBackoffSteps 0 none none).1 := by
  unfold updateNodeRetry
  cases hout : (retryLoop env nodeName f defaultBackoffSteps 0 none none).2.2 with
  | panicked => simp [hout]
  | finished retErr => cases retErr <;> simp [hout]

/-- C1. On every retry attempt of the conflict-aware update, the patch
submitted to the store was computed inside that same attempt from that
attempt's own lister snapshot: the attempt fetched `n` from the lister,
serialized it, applied the mutation `f` to a deep copy of it,
serialized the result, and diffed the two serializations into exactly
the submitted patch — so no attempt reuses a snapshot or a patch from
an earlier attempt. -/
theorem updateNodeRetry_patch_fresh_per_attempt {Ser Patch : Type}
    (env : Env Ser Patch) (nodeName : String) (f : Node → Option Node)
    (i : Nat) (p : Patch)
    (h : (i, p) ∈ (updateNodeRetry env nodeName f).1.submitted) :
    ∃ n nc old new, env.listerGet i = .ok n ∧ env.marshal n = .ok old ∧
      f n.deepCopy = some nc ∧ env.marshal nc = .ok new ∧
      env.createTwoWayMergePatch old new = .ok p := by
  rw [updateNodeRetry_fst] at h
  obtain ⟨a, e, hat⟩ :=
    retryLoop_submitted_inv env nodeName f defaultBackoffSteps 0 none none i p h
  exact updateAttempt_submitted_inv env nodeName f i a p e hat

/-- Attempt numbers recorded by the loop never precede the loop's
starting index. -/
theorem retryLoop_attempts_ge {Ser Patch : Type} (env : Env Ser Patch)
    (nodeName : String) (f : Node → Option Node) :
    ∀ (steps i0 : Nat) (nv : Option Node) (lc : Option GoError) (j : Nat),
      j ∈ (retryLoop env nodeName f steps i0 nv lc).1.attempts → i0 ≤ j := by
  intro steps
  induction steps with
  | zero =>
    intro i0 nv lc j h
    rw [retryLoop_zero] at h
    simp at h
  | succ steps ih =>
    intro i0 nv lc j h
    rw [retryLoop_succ] at h
    cases hat : updateAttempt env nodeName f i0 with
    | panicked =>
      rw [hat] at h
      simp at h
      omega
    | done assigned submitted0 err =>
      rw [hat] at h
      cases err with
      | none =>
        simp at h
        omega
      | some e =>
        by_cases hc : e.isConflict
        · simp [hc] at h
          rcases h with h | h
          · omega
          · have := ih (i0 + 1) _ (some e) j h
            omega
        · simp [hc] at h
          omega

/-- If an attempt the loop reached returned a non-conflict error, the
loop stopped right there: its attempts are exactly the contiguous range
ending at that attempt, and it finished with that error. -/
theorem retryLoop_nonconflict_stop {Ser Patch : Type} (env : Env Ser Patch)
    (nodeName : String) (f : Node → Option Node) :
    ∀ (steps i0 : Nat) (nv : Option Node) (lc : Option GoError) (i : Nat)
      (a : Option Node) (sm : Option Patch) (e : GoError),
      updateAttempt env nodeName f i = .done a sm (some e) →
      e.isConflict = false →
      i ∈ (retryLoop env nodeName f steps i0 nv lc).1.attempts →
      (retryLoop env nodeName f steps i0 nv lc).1.attempts =
        List.range' i0 (i - i0 + 1) ∧
      ∃ nv2, (retryLoop env nodeName f steps i0 nv lc).2 =
        (nv2, .finished (some e)) := by
  intro steps
  induction steps with
  | zero =>
    intro i0 nv lc i a sm e hat hnc h
    rw [retryLoop_zero] at h
    simp at h
  | succ steps ih =>
    intro i0 nv lc i a sm e hat hnc h
    rw [retryLoop_succ] at h
    rw [retryLoop_succ]
    cases hat0 : updateAttempt env nodeName f i0 with
    | panicked =>
      rw [hat0] at h
      simp at h
      subst h
      rw [hat0] at hat
      exact absurd hat (by simp)
    | done assigned submitted0 err =>
      rw [hat0] at h
      cases err with
      | none =>
        simp at h
        subst h
        rw [hat0] at hat
        simp at hat
      | some e0 =>
        by_cases hc : e0.isConflict
        · simp [hc] at h
          rcases h with h | h
          · subst h
            rw [hat0] at hat
            simp at hat
            obtain ⟨-, -, he⟩ := hat
            subst he
            rw [hc] at hnc
            exact absurd hnc (by simp)
          · have hge := retryLoop_attempts_ge env nodeName f steps (i0 + 1) _ (some e0) i h
            obtain ⟨htr, nv2, hout⟩ := ih (i0 + 1) _ (some e0) i a sm e hat hnc h
            simp [hat0, hc]
            have h1 : i - i0 + 1 = (i - (i0 + 1) + 1) + 1 := by omega
            constructor
            · rw [htr, h1]
              conv_rhs => rw [List.range'_succ]
            · exact ⟨nv2, by rw [← hout]⟩
        · simp [hc] at h
          subst h
          rw [hat0] at hat
          simp at hat
          obtain ⟨-, -, he⟩ := hat
          subst he
          simp [hat0, hc]

/-- C1 witness: against the concrete store, attempt 0 submitted the
diff of the stored node and its mutated clone. -/
theorem updateNodeRetry_patch_fresh_per_attempt_witness :
    ((0, mkMergePatch wNode wNodeDeg) ∈
      (updateNodeRetry (concreteEnv wNode) "node-1"
        (setNodeAnnosMutation degradedAnnos)).1.submitted) ∧
    (∃ n nc old new, (concreteEnv wNode).listerGet 0 = .ok n ∧
      (concreteEnv wNode).marshal n = .ok old ∧
      setNodeAnnosMutation degradedAnnos n.deepCopy = some nc ∧
      (concreteEnv wNode).marshal nc = .ok new ∧
      (concreteEnv wNode).createTwoWayMergePatch old new =
        .ok (mkMergePatch wNode wNodeDeg)) :=
  ⟨by decide,
    updateNodeRetry_patch_fresh_per_attempt (concreteEnv wNode) "node-1"
      (setNodeAnnosMutation degradedAnnos) 0 (mkMergePatch wNode wNodeDeg)
      (by decide)⟩

/-- C2. If an attempt the retry loop reached ended with a non-conflict
error — a lister failure, a marshalling failure, a patch-creation
failure or a non-conflict store error — then no later attempt runs (the
attempts are exactly `0..i`) and `updateNodeRetry` returns that error
wrapped as on line 188. -/
theorem updateNodeRetry_nonconflict_error_aborts {Ser Patch : Type}
    (env : Env Ser Patch) (nodeName : String) (f : Node → Option Node)
    (i : Nat) (a : Option Node) (sm : Option Patch) (e : GoError)
    (hi : i ∈ (updateNodeRetry env nodeName f).1.attempts)
    (hat : updateAttempt env nodeName f i = .done a sm (some e))
    (hnc : e.isConflict = false) :
    (updateNodeRetry env nodeName f).1.attempts = List.range (i + 1) ∧
    ∃ nv, (updateNodeRetry env nodeName f).2 = .err (mkUnableErr nv e) := by
  rw [updateNodeRetry_fst] at hi
  obtain ⟨htr, nv2, hout⟩ := retryLoop_nonconflict_stop env nodeName f
    defaultBackoffSteps 0 none none i a sm e hat hnc hi
  have h22 : (retryLoop env nodeName f defaultBackoffSteps 0 none none).2.2 =
      .finished (some e) := by rw [hout]
  have h21 : (retryLoop env nodeName f defaultBackoffSteps 0 none none).2.1 =
      nv2 := by rw [hout]
  constructor
  · rw [updateNodeRetry_fst, htr, List.range_eq_range']
    simp
  · refine ⟨nv2, ?_⟩
    unfold updateNodeRetry
    simp [h22, h21]

/-- C2 witness: a lister failure on attempt 0 stops the loop at once
and is returned (wrapped). -/
theorem updateNodeRetry_nonconflict_error_aborts_witness :
    (0 ∈ (updateNodeRetry failEnv "node-1"
        (setNodeAnnosMutation degradedAnnos)).1.attempts ∧
      updateAttempt failEnv "node-1" (setNodeAnnosMutation degradedAnnos) 0 =
        .done none none (some (GoError.other "boom")) ∧
      (GoError.other "boom").isConflict = false) ∧
    ((updateNodeRetry failEnv "node-1"
        (setNodeAnnosMutation degradedAnnos)).1.attempts = List.range 1 ∧
      ∃ nv, (updateNodeRetry failEnv "node-1"
        (setNodeAnnosMutation degradedAnnos)).2 =
          .err (mkUnableErr nv (GoError.other "boom"))) :=
  ⟨⟨by decide, by decide, by decide⟩,
    updateNodeRetry_nonconflict_error_aborts failEnv "node-1"
      (setNodeAnnosMutation degradedAnnos) 0 none none (GoError.other "boom")
      (by decide) (by decide) (by decide)⟩

set_option maxRecDepth 100000 in
/-- C3 (code bug, line 188): when the conflict-retry limit is exhausted
the function does return a nil node and a non-nil error wrapping the
last conflict error — but the error does not identify the target key:
`fmt.Errorf("unable to update node %q: %v", node, err)` passes the
local `*v1.Node` (here the empty node the client returned), not
`nodeName`, so `%q` prints the quoted Stringer dump of that empty
object — the message carries the wrapped conflict text but never the
node name "node-1". -/
theorem updateNodeRetry_exhausted_error_lacks_node_name :
    (updateNodeRetry conflictEnv "node-1"
        (setNodeAnnosMutation degradedAnnos)).2 =
      .err (mkUnableErr (some emptyNode)
        (.conflict "the object has been modified")) ∧
    strContains (GoError.msg (mkUnableErr (some emptyNode)
      (.conflict "the object has been modified")))
      "the object has been modified" = true ∧
    strContains (GoError.msg (mkUnableErr (some emptyNode)
      (.conflict "the object has been modified"))) "node-1" = false := by
  refine ⟨by decide, by decide, by decide⟩

/-- C4 (amended): for every run in which no message's processing
panics, the loop writes exactly one response per dequeued message —
exactly the error component returned by the conflict-aware updater,
`none` on success — and keeps running regardless of errors. -/
theorem nodeWriterRun_exactly_one_response_unless_panic {Ser Patch : Type}
    (msgs : List (Msg Ser Patch))
    (h : ∀ msg ∈ msgs,
      (setNodeAnnotations msg.env msg.node msg.annos).2 ≠ URes.panicked) :
    NodeWriterRun msgs =
      (msgs.map (fun msg => uresErrOf (setNodeAnnotations msg.env msg.node msg.annos).2),
        false) := by
  induction msgs with
  | nil => rfl
  | cons msg rest ih =>
    have hrest : ∀ m ∈ rest,
        (setNodeAnnotations m.env m.node m.annos).2 ≠ URes.panicked :=
      fun m hm => h m (List.mem_cons_of_mem msg hm)
    have hmsg := h msg (List.mem_cons_self msg rest)
    cases hres : (setNodeAnnotations msg.env msg.node msg.annos).2 with
    | panicked => exact absurd hres hmsg
    | ok nd => simp [NodeWriterRun, hres, ih hrest, uresErrOf]
    | err e => simp [NodeWriterRun, hres, ih hrest, uresErrOf]

/-- C4 witness: a run over one non-panicking message writes exactly its
updater result and the loop survives. -/
theorem nodeWriterRun_exactly_one_response_unless_panic_witness :
    (∀ msg ∈ [okMsg],
      (setNodeAnnotations msg.env msg.node msg.annos).2 ≠ URes.panicked) ∧
    NodeWriterRun [okMsg] =
      ([okMsg].map (fun msg =>
        uresErrOf (setNodeAnnotations msg.env msg.node msg.annos).2), false) :=
  ⟨by decide, nodeWriterRun_exactly_one_response_unless_panic [okMsg] (by decide)⟩

/-- C4 counterexample: a dequeued message whose mutation hits a nil
annotation map panics the loop before the response is written: the run
over that one message writes zero responses and terminates — the claim
that every dequeued request receives exactly one value, and that a
request's failure never terminates the loop, fails at this input. -/
theorem nodeWriterRun_panic_drops_response :
    NodeWriterRun [panicMsg] = ([], true) ∧
    (NodeWriterRun [panicMsg]).1.length = 0 ∧ [panicMsg].length = 1 := by
  refine ⟨by decide, by decide, rfl⟩

/-- C5. `SetDone` submits the Done/current-config annotations and hands
back exactly the processing result; against the concrete store (with a
non-nil, key-distinct annotation map) the update succeeds, the
resulting object carries state `Done` and the supplied configuration
identifier, and `SetDone` returns nil. -/
theorem setDone_sets_done_and_config (stored : Node) (a : AnnoMap)
    (nodeName dc : String) (ha : stored.annotations = some a)
    (hwf : a.keysNodup) :
    (∀ (Ser2 Patch2 : Type) (env : Env Ser2 Patch2) (nd dc2 : String),
      SetDone env nd dc2 = processMsg env nd (setDoneAnnos dc2)) ∧
    ∃ n', (setNodeAnnotations (concreteEnv stored) nodeName (setDoneAnnos dc)).2 =
        URes.ok (some n') ∧
      n'.getAnno MachineConfigDaemonStateAnnotationKey =
        some MachineConfigDaemonStateDone ∧
      n'.getAnno CurrentMachineConfigAnnotationKey = some dc ∧
      SetDone (concreteEnv stored) nodeName dc = PRes.ret none := by
  refine ⟨fun _ _ _ _ _ => rfl, ?_⟩
  obtain ⟨c, hres, hcw, hck⟩ :=
    setNodeAnnotations_concrete stored a nodeName (setDoneAnnos dc) ha hwf
  have hget := hck
  have hne : ¬CurrentMachineConfigAnnotationKey = MachineConfigDaemonStateAnnotationKey := by
    decide
  refine ⟨_, hres, ?_, ?_, ?_⟩
  · show AnnoMap.get c MachineConfigDaemonStateAnnotationKey = _
    rw [hget MachineConfigDaemonStateAnnotationKey]
    show AnnoMap.get
      (AnnoMap.set (AnnoMap.set a MachineConfigDaemonStateAnnotationKey
        MachineConfigDaemonStateDone) CurrentMachineConfigAnnotationKey dc)
      MachineConfigDaemonStateAnnotationKey = _
    rw [AnnoMap.get_set, if_neg hne, AnnoMap.get_set, if_pos rfl]
  · show AnnoMap.get c CurrentMachineConfigAnnotationKey = _
    rw [hget CurrentMachineConfigAnnotationKey]
    show AnnoMap.get
      (AnnoMap.set (AnnoMap.set a MachineConfigDaemonStateAnnotationKey
        MachineConfigDaemonStateDone) CurrentMachineConfigAnnotationKey dc)
      CurrentMachineConfigAnnotationKey = _
    rw [AnnoMap.get_set, if_pos rfl]
  · show processMsg (concreteEnv stored) nodeName (setDoneAnnos dc) = PRes.ret none
    unfold processMsg
    rw [hres]

/-- C5 witness: a concrete stored node with an empty map. -/
theorem setDone_sets_done_and_config_witness :
    (wNode.annotations = some [] ∧ AnnoMap.keysNodup ([] : AnnoMap)) ∧
    ((∀ (Ser2 Patch2 : Type) (env : Env Ser2 Patch2) (nd dc2 : String),
      SetDone env nd dc2 = processMsg env nd (setDoneAnnos dc2)) ∧
    ∃ n', (setNodeAnnotations (concreteEnv wNode) "node-1"
        (setDoneAnnos "cfg-v2")).2 = URes.ok (some n') ∧
      n'.getAnno MachineConfigDaemonStateAnnotationKey =
        some MachineConfigDaemonStateDone ∧
      n'.getAnno CurrentMachineConfigAnnotationKey = some "cfg-v2" ∧
      SetDone (concreteEnv wNode) "node-1" "cfg-v2" = PRes.ret none) :=
  ⟨⟨rfl, by decide⟩,
    setDone_sets_done_and_config wNode [] "node-1" "cfg-v2" rfl (by decide)⟩

/-- C6. The attempt body never mutates the snapshot fetched from the
lister: in the aliasing-level model the cache cell the lister's pointer
refers to holds the same value after the attempt as before (so its
serialization before cloning equals one taken afterwards), and the
"before" serialization input is exactly the fetched value — the
mutation only ever writes through the freshly allocated clone pointer. -/
theorem attemptBodyHeap_preserves_snapshot (h : Heap) (addr : Nat)
    (f : Node → Option Node) (n : Node) (hget : h.get addr = some n) :
    (attemptBodyHeap h addr f).1.get addr = some n ∧
    ∀ pr, (attemptBodyHeap h addr f).2 = some pr → pr.1 = n := by
  have hlt : addr < h.cells.length := (List.getElem?_eq_some.mp hget).1
  have hne : ¬h.cells.length = addr := by omega
  unfold attemptBodyHeap
  rw [hget]
  simp only []
  cases hf : f n.deepCopy with
  | none =>
    constructor
    · show (⟨h.cells ++ [n.deepCopy]⟩ : Heap).get addr = some n
      show (h.cells ++ [n.deepCopy])[addr]? = some n
      rw [List.getElem?_append]
      rw [if_pos hlt]
      exact hget
    · intro pr hpr
      exact absurd hpr (by simp)
  | some nMut =>
    constructor
    · show (Heap.set ⟨h.cells ++ [n.deepCopy]⟩ h.cells.length nMut).get addr = some n
      show ((h.cells ++ [n.deepCopy]).set h.cells.length nMut)[addr]? = some n
      rw [List.getElem?_set_ne hne, List.getElem?_append]
      rw [if_pos hlt]
      exact hget
    · intro pr hpr
      simp at hpr
      rw [← hpr]

/-- C6 witness: a two-cell heap with the lister pointing at cell 0. -/
theorem attemptBodyHeap_preserves_snapshot_witness :
    ((⟨[wNode, wNodeNil]⟩ : Heap).get 0 = some wNode) ∧
    ((attemptBodyHeap ⟨[wNode, wNodeNil]⟩ 0
        (setNodeAnnosMutation degradedAnnos)).1.get 0 = some wNode ∧
      ∀ pr, (attemptBodyHeap ⟨[wNode, wNodeNil]⟩ 0
        (setNodeAnnosMutation degradedAnnos)).2 = some pr → pr.1 = wNode) :=
  ⟨by decide,
    attemptBodyHeap_preserves_snapshot ⟨[wNode, wNodeNil]⟩ 0
      (setNodeAnnosMutation degradedAnnos) wNode (by decide)⟩

/-- `storeAfter` of a node with a non-nil, key-distinct annotation map:
the update succeeds and the resulting object's annotations are the
stored ones with `m` folded in. -/
theorem storeAfter_get (stored : Node) (a : AnnoMap) (nodeName : String)
    (m : AnnoMap) (ha : stored.annotations = some a) (hwf : a.keysNodup) :
    ∃ n2 c, storeAfter stored nodeName m = some n2 ∧
      n2.annotations = some c ∧ AnnoMap.keysNodup c ∧
      ∀ k, AnnoMap.get c k =
        AnnoMap.get (List.foldl (fun acc kv => AnnoMap.set acc kv.1 kv.2) a m) k := by
  obtain ⟨c, hres, hcw, hck⟩ :=
    setNodeAnnotations_concrete stored a nodeName m ha hwf
  refine ⟨Node.mk stored.name (some c) stored.resourceVersion, c, ?_, rfl, hcw, hck⟩
  unfold storeAfter
  rw [hres]

/-- `getAnno` through a known annotation map. -/
theorem Node.getAnno_eq (n : Node) (c : AnnoMap) (h : n.annotations = some c)
    (k : String) : n.getAnno k = AnnoMap.get c k := by
  unfold Node.getAnno
  rw [h]

/-- C7. `SetUnreconcilable` and `SetDegraded` log the supplied cause,
submit exactly the one-entry state-annotation map (Unreconcilable,
respectively Degraded), return exactly the value received on the
completion channel, and when that value is a non-nil error they also
log the failure while still returning it. -/
theorem setUnreconcilable_setDegraded_log_and_return {Ser Patch : Type}
    (cause : GoError) (env : Env Ser Patch) (node : String) :
    (glogMarkingUnreconcilable cause ∈ (SetUnreconcilable cause env node).1 ∧
      unreconcilableAnnos = [(MachineConfigDaemonStateAnnotationKey,
        MachineConfigDaemonStateUnreconcilable)] ∧
      (SetUnreconcilable cause env node).2 = processMsg env node unreconcilableAnnos ∧
      ∀ e, (SetUnreconcilable cause env node).2 = .ret (some e) →
        glogUnreconcilableFail node e ∈ (SetUnreconcilable cause env node).1) ∧
    (glogMarkingDegraded cause ∈ (SetDegraded cause env node).1 ∧
      degradedAnnos = [(MachineConfigDaemonStateAnnotationKey,
        MachineConfigDaemonStateDegraded)] ∧
      (SetDegraded cause env node).2 = processMsg env node degradedAnnos ∧
      ∀ e, (SetDegraded cause env node).2 = .ret (some e) →
        glogDegradedFail node e ∈ (SetDegraded cause env node).1) := by
  constructor
  · cases hp : processMsg env node unreconcilableAnnos with
    | panicked =>
      refine ⟨?_, rfl, ?_, ?_⟩ <;> simp [SetUnreconcilable, hp]
    | ret x =>
      cases x with
      | none =>
        refine ⟨?_, rfl, ?_, ?_⟩ <;> simp [SetUnreconcilable, hp]
      | some e0 =>
        refine ⟨?_, rfl, ?_, ?_⟩
        · simp [SetUnreconcilable, hp]
        · simp [SetUnreconcilable, hp]
        · intro e he
          simp [SetUnreconcilable, hp] at he ⊢
          subst he
          simp
  · cases hp : processMsg env node degradedAnnos with
    | panicked =>
      refine ⟨?_, rfl, ?_, ?_⟩ <;> simp [SetDegraded, hp]
    | ret x =>
      cases x with
      | none =>
        refine ⟨?_, rfl, ?_, ?_⟩ <;> simp [SetDegraded, hp]
      | some e0 =>
        refine ⟨?_, rfl, ?_, ?_⟩
        · simp [SetDegraded, hp]
        · simp [SetDegraded, hp]
        · intro e he
          simp [SetDegraded, hp] at he ⊢
          subst he
          simp

/-- C7 witness: with a failing lister the update errors, the failure is
logged, and the same error is returned. -/
theorem setUnreconcilable_setDegraded_log_and_return_witness :
    ((SetUnreconcilable (GoError.other "cause") failEnv "node-1").2 =
        PRes.ret (some (mkUnableErr none (GoError.other "boom"))) ∧
      glogUnreconcilableFail "node-1" (mkUnableErr none (GoError.other "boom")) ∈
        (SetUnreconcilable (GoError.other "cause") failEnv "node-1").1) ∧
    ((SetDegraded (GoError.other "cause") failEnv "node-1").2 =
        PRes.ret (some (mkUnableErr none (GoError.other "boom"))) ∧
      glogDegradedFail "node-1" (mkUnableErr none (GoError.other "boom")) ∈
        (SetDegraded (GoError.other "cause") failEnv "node-1").1) :=
  ⟨⟨by decide,
    (setUnreconcilable_setDegraded_log_and_return (GoError.other "cause")
      failEnv "node-1").1.2.2.2 (mkUnableErr none (GoError.other "boom"))
      (by decide)⟩,
   ⟨by decide,
    (setUnreconcilable_setDegraded_log_and_return (GoError.other "cause")
      failEnv "node-1").2.2.2.2 (mkUnableErr none (GoError.other "boom"))
      (by decide)⟩⟩

/-- C8. The annotation-merge mutation writes only the keys of `m`:
every other key keeps its value. In particular, a Degraded-state update
and an SSH-access update applied in either order (each recomputed from
the then-current stored object) leave both annotations present with
their written values. -/
theorem setNodeAnnosMutation_frame_and_scenario :
    (∀ (node : Node) (a m : AnnoMap) (k : String), node.annotations = some a →
      ¬k ∈ AnnoMap.keys m →
      ∃ node2, setNodeAnnosMutation m node = some node2 ∧
        node2.getAnno k = node.getAnno k) ∧
    (∀ (node0 : Node) (a : AnnoMap) (nodeName : String),
      node0.annotations = some a → a.keysNodup →
      (∃ n1 n2, storeAfter node0 nodeName degradedAnnos = some n1 ∧
        storeAfter n1 nodeName sshAccessedAnnos = some n2 ∧
        n2.getAnno MachineConfigDaemonStateAnnotationKey =
          some MachineConfigDaemonStateDegraded ∧
        n2.getAnno machineConfigDaemonSSHAccessAnnotationKey =
          some machineConfigDaemonSSHAccessValue) ∧
      (∃ n1 n2, storeAfter node0 nodeName sshAccessedAnnos = some n1 ∧
        storeAfter n1 nodeName degradedAnnos = some n2 ∧
        n2.getAnno MachineConfigDaemonStateAnnotationKey =
          some MachineConfigDaemonStateDegraded ∧
        n2.getAnno machineConfigDaemonSSHAccessAnnotationKey =
          some machineConfigDaemonSSHAccessValue)) := by
  have hnekey : ¬machineConfigDaemonSSHAccessAnnotationKey =
      MachineConfigDaemonStateAnnotationKey := by decide
  have hnekey2 : ¬MachineConfigDaemonStateAnnotationKey =
      machineConfigDaemonSSHAccessAnnotationKey := by decide
  constructor
  · intro node a m k ha hk
    rw [setNodeAnnosMutation_some m node a ha]
    refine ⟨_, rfl, ?_⟩
    show AnnoMap.get (List.foldl (fun acc kv => AnnoMap.set acc kv.1 kv.2) a m) k =
      node.getAnno k
    rw [AnnoMap.get_foldl_set_not_mem m a k hk]
    unfold Node.getAnno
    rw [ha]
  · intro node0 a nodeName ha hwf
    constructor
    · obtain ⟨n1, c1, hs1, ha1, hw1, hk1⟩ :=
        storeAfter_get node0 a nodeName degradedAnnos ha hwf
      obtain ⟨n2, c2, hs2, ha2, hw2, hk2⟩ :=
        storeAfter_get n1 c1 nodeName sshAccessedAnnos ha1 hw1
      refine ⟨n1, n2, hs1, hs2, ?_, ?_⟩
      · rw [Node.getAnno_eq n2 c2 ha2, hk2 MachineConfigDaemonStateAnnotationKey]
        show AnnoMap.get (AnnoMap.set c1 machineConfigDaemonSSHAccessAnnotationKey
          machineConfigDaemonSSHAccessValue) MachineConfigDaemonStateAnnotationKey = _
        rw [AnnoMap.get_set, if_neg hnekey, hk1 MachineConfigDaemonStateAnnotationKey]
        show AnnoMap.get (AnnoMap.set a MachineConfigDaemonStateAnnotationKey
          MachineConfigDaemonStateDegraded) MachineConfigDaemonStateAnnotationKey = _
        rw [AnnoMap.get_set, if_pos rfl]
      · rw [Node.getAnno_eq n2 c2 ha2, hk2 machineConfigDaemonSSHAccessAnnotationKey]
        show AnnoMap.get (AnnoMap.set c1 machineConfigDaemonSSHAccessAnnotationKey
          machineConfigDaemonSSHAccessValue) machineConfigDaemonSSHAccessAnnotationKey = _
        rw [AnnoMap.get_set, if_pos rfl]
    · obtain ⟨n1, c1, hs1, ha1, hw1, hk1⟩ :=
        storeAfter_get node0 a nodeName sshAccessedAnnos ha hwf
      obtain ⟨n2, c2, hs2, ha2, hw2, hk2⟩ :=
        storeAfter_get n1 c1 nodeName degradedAnnos ha1 hw1
      refine ⟨n1, n2, hs1, hs2, ?_, ?_⟩
      · rw [Node.getAnno_eq n2 c2 ha2, hk2 MachineConfigDaemonStateAnnotationKey]
        show AnnoMap.get (AnnoMap.set c1 MachineConfigDaemonStateAnnotationKey
          MachineConfigDaemonStateDegraded) MachineConfigDaemonStateAnnotationKey = _
        rw [AnnoMap.get_set, if_pos rfl]
      · rw [Node.getAnno_eq n2 c2 ha2, hk2 machineConfigDaemonSSHAccessAnnotationKey]
        show AnnoMap.get (AnnoMap.set c1 MachineConfigDaemonStateAnnotationKey
          MachineConfigDaemonStateDegraded) machineConfigDaemonSSHAccessAnnotationKey = _
        rw [AnnoMap.get_set, if_neg hnekey2, hk1 machineConfigDaemonSSHAccessAnnotationKey]
        show AnnoMap.get (AnnoMap.set a machineConfigDaemonSSHAccessAnnotationKey
          machineConfigDaemonSSHAccessValue) machineConfigDaemonSSHAccessAnnotationKey = _
        rw [AnnoMap.get_set, if_pos rfl]

/-- C8 witness: the frame property and the two-order scenario at a
concrete node. -/
theorem setNodeAnnosMutation_frame_and_scenario_witness :
    (wNode.annotations = some [] ∧
      ¬"other-key" ∈ AnnoMap.keys degradedAnnos ∧
      ∃ node2, setNodeAnnosMutation degradedAnnos wNode = some node2 ∧
        node2.getAnno "other-key" = wNode.getAnno "other-key") ∧
    (∃ n1 n2, storeAfter wNode "node-1" degradedAnnos = some n1 ∧
      storeAfter n1 "node-1" sshAccessedAnnos = some n2 ∧
      n2.getAnno MachineConfigDaemonStateAnnotationKey =
        some MachineConfigDaemonStateDegraded ∧
      n2.getAnno machineConfigDaemonSSHAccessAnnotationKey =
        some machineConfigDaemonSSHAccessValue) :=
  ⟨⟨rfl, by decide,
    setNodeAnnosMutation_frame_and_scenario.1 wNode [] degradedAnnos
      "other-key" rfl (by decide)⟩,
    (setNodeAnnosMutation_frame_and_scenario.2 wNode [] "node-1" rfl
      (by decide)).1⟩

/-- C9 counterexample: the SSH-access annotation value the code submits
is the string constant "accessed", which is not a boolean value (Go's
`strconv.ParseBool` rejects it). -/
theorem sshAccessValue_not_boolean :
    AnnoMap.get sshAccessedAnnos machineConfigDaemonSSHAccessAnnotationKey =
      some "accessed" ∧
    goParseBool "accessed" = none := by
  decide

/-- C9 (amended): `SetSSHAccessed` submits exactly the one-entry map
carrying the fixed string marker value "accessed" and returns the
processing result. -/
theorem setSSHAccessed_submits_accessed_string {Ser Patch : Type}
    (env : Env Ser Patch) (node : String) :
    SetSSHAccessed env node = processMsg env node sshAccessedAnnos ∧
    sshAccessedAnnos = [(machineConfigDaemonSSHAccessAnnotationKey,
      machineConfigDaemonSSHAccessValue)] ∧
    machineConfigDaemonSSHAccessValue = "accessed" :=
  ⟨rfl, rfl, rfl⟩

/-- C10. For every fetched node whose `Annotations` map is nil and
every non-empty annotation map, the mutation built by
`setNodeAnnotations` writes to a nil map and panics (the embedding's
panic branch), so the whole update panics: a non-nil map is an unstated
precondition of every `Set*` operation. -/
theorem setNodeAnnotations_nil_map_panics (node : Node) (m : AnnoMap)
    (ha : node.annotations = none) (hm : ¬m = []) :
    setNodeAnnosMutation m node = none ∧
    ∀ nodeName, (setNodeAnnotations (concreteEnv node) nodeName m).2 =
      URes.panicked := by
  have hmut : setNodeAnnosMutation m node = none := by
    cases m with
    | nil => exact absurd rfl hm
    | cons kv rest =>
      obtain ⟨k, v⟩ := kv
      simp [setNodeAnnosMutation, mapAssign, ha]
  refine ⟨hmut, fun nodeName => ?_⟩
  have hatt : updateAttempt (concreteEnv node) nodeName
      (setNodeAnnosMutation m) 0 = .panicked := by
    simp [updateAttempt, concreteEnv, Node.deepCopy, hmut]
  unfold setNodeAnnotations
  rw [updateNodeRetry_first_panic _ _ _ hatt]

/-- C10 witness: a nil-annotations node and the Degraded update. -/
theorem setNodeAnnotations_nil_map_panics_witness :
    (wNodeNil.annotations = none ∧ ¬degradedAnnos = []) ∧
    setNodeAnnosMutation degradedAnnos wNodeNil = none ∧
    (setNodeAnnotations (concreteEnv wNodeNil) "node-1" degradedAnnos).2 =
      URes.panicked :=
  ⟨⟨rfl, by decide⟩,
    (setNodeAnnotations_nil_map_panics wNodeNil degradedAnnos rfl (by decide)).1,
    (setNodeAnnotations_nil_map_panics wNodeNil degradedAnnos rfl
      (by decide)).2 "node-1"⟩

end MCO
